import Mathlib

/-!
Verification of the Ergo connector (`src/chains/ergo/ergo.ts`, full revision in
`src/unnamed/part_000`, interfaces in `src/unnamed/part_001`).

Modelling conventions:
* TypeScript `bigint` / `BigNumber` amounts are modelled as `Nat` (the code only
  ever holds non-negative integer amounts in the paths verified here).
* Asynchronous collaborator calls (`NodeService`, `Explorer`, the DEX SDK) are
  modelled as explicit functional parameters: the node's paginated UTXO index
  becomes a list of pages, SDK math (`AmmPool.outputAmount`,
  `getBaseInputParameters`, `swapVars`, `getInputs`, `publicKeyFromAddress`)
  becomes fields of an environment record, and thrown exceptions become
  `Except` / `Option` results.
* Byte buffers are `List Nat` (each entry < 256 where it matters), strings that
  are only split/concatenated are `List Char`.
-/

namespace ErgoSpec

/-! ## Boxes and pagination (`Ergo.getAddressUnspentBoxes`)

The node's unspent-box index is modelled as the list of successive pages it
returns: page `i` is what `node.getUnspentBoxesByAddress(address, i*utxosLimit,
utxosLimit)` yields, and every page past the end of the list is empty.  The
box type is a type parameter: the loop never inspects a box.

TypeScript source (part_000, lines 222-242):
```
let utxos = []; let offset = 0;
let nodeBoxes = await node.getUnspentBoxesByAddress(address, offset, limit);
while (nodeBoxes.length > 0) {
  utxos = [...utxos, ...nodeBoxes];
  offset += this.utxosLimit;
  nodeBoxes = await node.getUnspentBoxesByAddress(address, offset, limit);
}
return utxos;
```
The result below is the pair (collected boxes, number of page requests issued).
-/

def getAddressUnspentBoxes {Box : Type} : List (List Box) → List Box × Nat
  | [] => ([], 1)
  | page :: rest =>
    if page.length > 0 then
      let r := getAddressUnspentBoxes rest
      (page ++ r.1, 1 + r.2)
    else ([], 1)

/-! ## Pool registry (`Ergo.loadPools`, `Ergo.getPoolByToken`) -/

structure AssetInfo where
  id : String
  decimals : Nat
deriving DecidableEq, Repr

structure AssetAmount where
  asset : AssetInfo
  amount : Nat
deriving DecidableEq, Repr

structure Pool where
  id : String
  x : AssetAmount
  y : AssetAmount
  poolFeeNum : Nat
deriving DecidableEq, Repr

/-- One iteration of the `for (const pool of pools)` body in `loadPools`
(part_000 lines 418-422): push `pool` unless a pool with the same id is already
in `ammPools` (the filter runs against the catalog as grown so far). -/
def pushIfNewId (catalog : List Pool) (pool : Pool) : List Pool :=
  if (catalog.filter (fun ammPool => ammPool.id = pool.id)).length = 0 then
    catalog ++ [pool]
  else catalog

/-- The whole `for` loop over one fetched page. -/
def addPoolPage (catalog : List Pool) (page : List Pool) : List Pool :=
  page.foldl pushIfNewId catalog

/-- `Ergo.loadPools` (part_000 lines 413-427): pages through the pool source at
fixed `poolLimit` page size, stopping at the first empty page.  As for boxes,
the source is modelled by its successive pages (page `i` is
`getPoolData(poolLimit, i*poolLimit)`, empty past the end). -/
def loadPools (catalog : List Pool) : List (List Pool) → List Pool
  | [] => catalog
  | page :: rest =>
    if page.length > 0 then loadPools (addPoolPage catalog page) rest
    else catalog

/-- `Ergo.getPoolByToken` (part_000 lines 641-651): first pool whose unordered
asset pair matches. -/
def getPoolByToken (ammPools : List Pool) (baseToken quoteToken : String) :
    Option Pool :=
  ammPools.find? (fun ammPool =>
    (ammPool.x.asset.id = baseToken ∧ ammPool.y.asset.id = quoteToken) ∨
    (ammPool.x.asset.id = quoteToken ∧ ammPool.y.asset.id = baseToken))

/-- `Ergo.getCurrentBlockNumber` (part_000 lines 211-214): the node's reported
network height plus one. -/
def getCurrentBlockNumber (networkHeight : Nat) : Nat :=
  networkHeight + 1

/-! ## SecretVault (`Ergo.encrypt` / `Ergo.decrypt`)

Bytes are `List Nat`; the secret and the password enter as their byte
encodings (`cipher.update(string)` / `key.write(password)` use the string's
UTF-8 bytes, and `decrypted.toString()` decodes them back, a bijection on
encoded strings that the model elides).  The AES-256 block cipher provided by
`createCipheriv('aes-256-cbc', ...)` is an external collaborator; it is
modelled as any pair of 16-byte block maps that invert each other, while the
CBC chaining, PKCS#7 padding, hex serialization and key-buffer handling — the
semantics the repository code relies on — are explicit below. -/

/-- `Buffer.alloc(32)` then `key.write(password)` (both in `encrypt` and
`decrypt`): the password's bytes occupy the front of a zeroed 32-byte buffer
and are truncated at 32 bytes. -/
def writeKey (password : List Nat) : List Nat :=
  password.take 32 ++ List.replicate (32 - password.length) 0

def hexDigit (n : Nat) : Char :=
  if n < 10 then Char.ofNat (48 + n) else Char.ofNat (87 + n)

def byteToHex (b : Nat) : List Char :=
  [hexDigit (b / 16), hexDigit (b % 16)]

/-- `buffer.toString('hex')`: lowercase hex, two digits per byte. -/
def toHex (bytes : List Nat) : List Char :=
  (bytes.map byteToHex).flatten

def hexVal (c : Char) : Option Nat :=
  if 48 ≤ c.toNat ∧ c.toNat ≤ 57 then some (c.toNat - 48)
  else if 97 ≤ c.toNat ∧ c.toNat ≤ 102 then some (c.toNat - 87)
  else if 65 ≤ c.toNat ∧ c.toNat ≤ 70 then some (c.toNat - 55)
  else none

/-- `Buffer.from(str, 'hex')` (Node semantics): decode successive pairs of hex
digits, stopping — and silently discarding the remainder — at the first
invalid pair or trailing lone digit. -/
def fromHex : List Char → List Nat
  | c1 :: c2 :: rest =>
    match hexVal c1, hexVal c2 with
    | some hi, some lo => (16 * hi + lo) :: fromHex rest
    | _, _ => []
  | _ => []

/-- `String.prototype.split(':')` on a character list. -/
def splitOnColon : List Char → List (List Char)
  | [] => [[]]
  | c :: cs =>
    if c = ':' then [] :: splitOnColon cs
    else
      match splitOnColon cs with
      | [] => [[c]]
      | field :: rest => (c :: field) :: rest

/-- PKCS#7 padding to the 16-byte AES block size (applied by
`cipher.final()`): append `p := 16 - len % 16` bytes of value `p`. -/
def pad16 (data : List Nat) : List Nat :=
  data ++ List.replicate (16 - data.length % 16) (16 - data.length % 16)

/-- PKCS#7 un-padding (checked by `decipher.final()`): the last byte `p` must
be in `1..16`, fit in the data, and the last `p` bytes must all equal `p`;
otherwise the decipher throws (`none`). -/
def unpad16 (data : List Nat) : Option (List Nat) :=
  match data.getLast? with
  | none => none
  | some p =>
    if 1 ≤ p ∧ p ≤ 16 ∧ p ≤ data.length ∧ (data.drop (data.length - p)).all (· = p)
    then some (data.take (data.length - p))
    else none

/-- The abstract AES-256 block permutation pair behind
`createCipheriv`/`createDecipheriv` with algorithm `'aes-256-cbc'`: encryption
and decryption of a single 16-byte block under a 32-byte key, inverse to each
other and byte-valued. -/
structure BlockCipher where
  enc : List Nat → List Nat → List Nat
  dec : List Nat → List Nat → List Nat
  enc_length : ∀ key block, block.length = 16 → (enc key block).length = 16
  enc_bytes : ∀ key block, block.length = 16 → (∀ b ∈ block, b < 256) →
    ∀ b ∈ enc key block, b < 256
  dec_enc : ∀ key block, block.length = 16 → dec key (enc key block) = block

def xorBytes (a b : List Nat) : List Nat :=
  List.zipWith (fun x y => x ^^^ y) a b

/-- CBC chaining over a list of 16-byte plaintext blocks. -/
def cbcEncBlocks (enc : List Nat → List Nat → List Nat) (key : List Nat) :
    List Nat → List (List Nat) → List (List Nat)
  | _, [] => []
  | prev, block :: blocks =>
    let c := enc key (xorBytes block prev)
    c :: cbcEncBlocks enc key c blocks

/-- CBC un-chaining over a list of 16-byte ciphertext blocks. -/
def cbcDecBlocks (dec : List Nat → List Nat → List Nat) (key : List Nat) :
    List Nat → List (List Nat) → List (List Nat)
  | _, [] => []
  | prev, c :: cs => xorBytes (dec key c) prev :: cbcDecBlocks dec key c cs

/-- Split into consecutive 16-byte chunks (structural recursion on a fuel
bound so that the definition evaluates by kernel reduction; any fuel at least
`data.length` gives the chunk decomposition). -/
def chunksGo : Nat → List Nat → List (List Nat)
  | _, [] => []
  | 0, _ :: _ => []
  | fuel + 1, d :: ds => (d :: ds).take 16 :: chunksGo fuel ((d :: ds).drop 16)

/-- Split into consecutive 16-byte chunks. -/
def chunks16 (data : List Nat) : List (List Nat) :=
  chunksGo data.length data

/-- `cipher.update(secret)` + `cipher.final()` for `'aes-256-cbc'`: pad, chunk
and CBC-encrypt under `key` starting from `iv`. -/
def cbcEncrypt (C : BlockCipher) (key iv data : List Nat) : List Nat :=
  (cbcEncBlocks C.enc key iv (chunks16 (pad16 data))).flatten

/-- `decipher.update(ct)` + `decipher.final()`: the ciphertext must be a whole
number of blocks (else the decipher throws a wrong-final-block-length error),
then CBC-decrypt and un-pad (a padding failure also throws). -/
def cbcDecrypt (C : BlockCipher) (key iv ct : List Nat) : Option (List Nat) :=
  if ct.length % 16 = 0 then
    unpad16 (cbcDecBlocks C.dec key iv (chunks16 ct)).flatten
  else none

/-- `Ergo.encrypt` (part_000 lines 299-309).  The fresh 16-byte IV produced by
`randomBytes(16)` is the only randomness and is passed explicitly. -/
def encrypt (C : BlockCipher) (secret password iv : List Nat) : List Char :=
  toHex iv ++ ':' :: toHex (cbcEncrypt C (writeKey password) iv secret)

/-- `Ergo.decrypt` (part_000 lines 318-335).  `const [iv, encryptedKey] =
encryptedSecret.split(':')` destructures only the first two fields: with a
single field `encryptedKey` is `undefined` and `Buffer.from(undefined, 'hex')`
throws (`none`); any further fields are ignored.  `createDecipheriv` throws
unless the decoded IV is exactly 16 bytes. -/
def decrypt (C : BlockCipher) (encryptedSecret : List Char) (password : List Nat) :
    Option (List Nat) :=
  match splitOnColon encryptedSecret with
  | [] => none
  | [_] => none
  | ivHex :: encryptedKeyHex :: _ =>
    let iv := fromHex ivHex
    let encryptedKey := fromHex encryptedKeyHex
    if iv.length = 16 then cbcDecrypt C (writeKey password) iv encryptedKey
    else none

/-! ## SwapEstimator (`Ergo.swap` / `Ergo.estimate`)

The DEX-SDK math and the I/O collaborators that `swap` consults are pure
snapshots bundled in `DexEnv`: `outputAmount` is `AmmPool.outputAmount`,
`getBaseInputParameters`/`getInputs` come from `ergo.util`, `swapVars` and
`publicKeyFromAddress` from the SDK, and `priceXNumerator`/`priceYNumerator`
are `pool.priceX.numerator`/`pool.priceY.numerator`.  `blockTimestamp` and
`txId` stand for the `getBlockInfo(...).header.timestamp` and
`actions.swap(...)` results.  All are deterministic within one call, which is
what the cross-consistency claims quantify over. -/

structure BoxAsset where
  tokenId : String
  amount : Nat
deriving DecidableEq, Repr

/-- The fields of `ErgoBox` (part_001) that the verified operations read;
`ergoTree`, registers and indexing metadata are carried by the real record but
never inspected here. -/
structure ErgoBox where
  boxId : String
  value : Nat
  assets : List BoxAsset
deriving DecidableEq, Repr

/-- `BaseInputParameters` (part_001 lines 67-71). -/
structure BaseInputParameters where
  baseInput : AssetAmount
  baseInputAmount : Nat
  minOutput : AssetAmount
deriving DecidableEq, Repr

/-- The two fields of the SDK's `SwapExtremums` that `swap` reads
(`extremum.maxExFee`, `extremum.minOutput`). -/
structure SwapExtremums where
  maxExFee : Nat
  minOutput : AssetAmount
deriving DecidableEq, Repr

/-- `max_to` (part_000 lines 491-496 / 598-603): the target-asset record built
with only an `id` (cast `as any`) and the requested amount. -/
structure MaxToAmount where
  assetId : String
  amount : Nat
deriving DecidableEq, Repr

structure DexEnv where
  outputAmount : Pool → MaxToAmount → ℚ → Nat
  getBaseInputParameters : Pool → AssetAmount → ℚ → BaseInputParameters
  swapVars : Nat → ℚ → AssetAmount → Option (Nat × SwapExtremums)
  /-- `getInputs(utxos, [target], {minerFee, uiFee, exFee})`: `some` of the
  selected covering subset, `none` when it throws; the selected boxes only
  flow into transaction assembly, which the claims do not inspect. -/
  getInputs : List ErgoBox → List AssetAmount → Nat → Nat → Nat → Option (List ErgoBox)
  publicKeyFromAddress : String → Option String
  priceXNumerator : Pool → Nat
  priceYNumerator : Pool → Nat
  defaultSlippage : ℚ
  defaultMinerFee : Nat
  minNitro : ℚ
  blockTimestamp : Nat
  txId : String

/-- JS `slippage || config.network.defaultSlippage`: `||` falls back to the
default also when the caller passes the falsy `0`. -/
def slippageOrDefault (slippage : Option ℚ) (d : ℚ) : ℚ :=
  match slippage with
  | some s => if s = 0 then d else s
  | none => d

inductive SwapError
  /-- `pool not found base on ${baseToken}, ${quoteToken}` -/
  | poolNotFound
  /-- `${amount} asset from ${max_to.asset.id} is not enough!` -/
  | insufficientLiquidity
  /-- `error in swap vars!` -/
  | swapVarsUnsatisfiable
  /-- `getInputs` threw (insufficient funds) -/
  | insufficientFunds
  /-- `output_address is not defined.` -/
  | invalidOutputAddress
deriving DecidableEq, Repr

/-- The deterministic fields of the `TradeResponse` built at part_000 lines
565-583 (`network`, `timestamp`, `latency` and the gas placeholders are
config/clock echoes). -/
structure TradeResult where
  base : String
  quote : String
  amount : Nat
  expectedOut : Nat
  price : Nat
  txHash : String
deriving DecidableEq, Repr

/-- The deterministic fields of the `PriceResponse` built at part_000 lines
618-635. -/
structure PriceResult where
  base : String
  quote : String
  amount : Nat
  expectedAmount : Nat
  price : Nat
deriving DecidableEq, Repr

/-- `Ergo.swap` (part_000 lines 458-583), with thrown errors as `.error`. -/
def swap (env : DexEnv) (ammPools : List Pool) (utxos : List ErgoBox)
    (baseToken quoteToken : String) (amount : Nat) (outputAddress : String)
    (slippage : Option ℚ) : Except SwapError TradeResult :=
  match getPoolByToken ammPools baseToken quoteToken with
  | none => .error .poolNotFound
  | some pool =>
    let sell : Bool := if pool.x.asset.id = baseToken then false else true
    let slip := slippageOrDefault slippage env.defaultSlippage
    let maxTo : MaxToAmount :=
      { assetId := if sell then pool.x.asset.id else pool.y.asset.id
        amount := amount }
    let fromAmount := env.outputAmount pool maxTo slip
    let fromAsset : AssetInfo :=
      { id := if sell then pool.y.asset.id else pool.x.asset.id
        decimals := if sell then pool.y.asset.decimals else pool.x.asset.decimals }
    if fromAmount = 0 then .error .insufficientLiquidity
    else
      let bip := env.getBaseInputParameters pool ⟨fromAsset, fromAmount⟩ slip
      match env.swapVars (env.defaultMinerFee * 3) env.minNitro bip.minOutput with
      | none => .error .swapVarsUnsatisfiable
      | some (_exFeePerToken, extremum) =>
        match env.getInputs utxos [⟨fromAsset, bip.baseInputAmount⟩]
            env.defaultMinerFee env.defaultMinerFee extremum.maxExFee with
        | none => .error .insufficientFunds
        | some _inputs =>
          match env.publicKeyFromAddress outputAddress with
          | none => .error .invalidOutputAddress
          | some _pk =>
            .ok { base := baseToken
                  quote := quoteToken
                  amount := amount
                  expectedOut := bip.minOutput.amount
                  price := if sell then env.priceXNumerator pool
                           else env.priceYNumerator pool
                  txHash := env.txId }

/-- `Ergo.estimate` (part_000 lines 585-635). -/
def estimate (env : DexEnv) (ammPools : List Pool)
    (baseToken quoteToken : String) (amount : Nat) (slippage : Option ℚ) :
    Except SwapError PriceResult :=
  match getPoolByToken ammPools baseToken quoteToken with
  | none => .error .poolNotFound
  | some pool =>
    let sell : Bool := if pool.x.asset.id = baseToken then false else true
    let slip := slippageOrDefault slippage env.defaultSlippage
    let maxTo : MaxToAmount :=
      { assetId := if sell then pool.x.asset.id else pool.y.asset.id
        amount := amount }
    let fromAmount := env.outputAmount pool maxTo slip
    let fromAsset : AssetInfo :=
      { id := if sell then pool.y.asset.id else pool.x.asset.id
        decimals := if sell then pool.y.asset.decimals else pool.x.asset.decimals }
    let bip := env.getBaseInputParameters pool ⟨fromAsset, fromAmount⟩ slip
    .ok { base := baseToken
          quote := quoteToken
          amount := amount
          expectedAmount := bip.minOutput.amount
          price := if sell then env.priceXNumerator pool
                   else env.priceYNumerator pool }

/-- The "required input" amount that `swap` and `estimate` both compute as
`from.amount` — direction resolution followed by `pool.outputAmount(max_to,
slippage)` — written out once so that properties can refer to it. -/
def requiredInputAmount (env : DexEnv) (pool : Pool) (baseToken : String)
    (amount : Nat) (slip : ℚ) : Nat :=
  let sell : Bool := if pool.x.asset.id = baseToken then false else true
  env.outputAmount pool
    { assetId := if sell then pool.x.asset.id else pool.y.asset.id
      amount := amount } slip

/-! ## Balance aggregation (`Ergo.getAssetBalance`) -/

/-- `ErgoAsset` (part_001 lines 27-32). -/
structure ErgoAsset where
  tokenId : String
  decimals : Nat
  name : String
  symbol : String
deriving DecidableEq, Repr

inductive BalanceError
  /-- `assetName not found ergo Node!` -/
  | assetNotFound
  /-- `problem during finding account assets ergo Node!` -/
  | nodeError
deriving DecidableEq, Repr

/-- `String.prototype.toUpperCase()` as applied to asset names (ASCII
model, character-wise uppercase). -/
def toUpperCase (s : String) : String :=
  String.mk (s.data.map Char.toUpper)

/-- `Ergo.getAssetBalance` (part_000 lines 345-374).  `_assetMap` (keyed by
uppercased asset name) is passed as an association list, and the outcome of
the `getAddressUnspentBoxes(account.address)` call inside the `try` — boxes on
success, the thrown error's message otherwise — is passed as `collected`. -/
def getAssetBalance (assetMap : List (String × ErgoAsset))
    (collected : Except String (List ErgoBox)) (assetName : String) :
    Except BalanceError String :=
  match assetMap.lookup (toUpperCase assetName) with
  | none => .error .assetNotFound
  | some ergoAsset =>
    match collected with
    | .error _ => .error .nodeError
    | .ok utxos =>
      .ok (toString (utxos.foldl (fun total box =>
        total +
          ((box.assets.filter (fun asset => asset.tokenId == ergoAsset.tokenId)).foldl
            (fun totalAsset asset => totalAsset + asset.amount) 0)) 0))

/-! # Theorems -/

/-- C10: `getCurrentBlockNumber` returns the ledger client's reported network
height plus one — the next block number — for every height the node
returns. -/
theorem C10_getCurrentBlockNumber_plus_one (networkHeight : Nat) :
    getCurrentBlockNumber networkHeight = networkHeight + 1 :=
  rfl

/-- C8: pool lookup by pair is symmetric in its arguments — for every catalog
state and tokens `a`, `b`, `getPoolByToken a b` and `getPoolByToken b a`
accept exactly the same pools, so the first match in catalog insertion order
is the same for both argument orders. -/
theorem C8_getPoolByToken_symm (ammPools : List Pool) (a b : String) :
    getPoolByToken ammPools a b = getPoolByToken ammPools b a := by
  unfold getPoolByToken
  congr 1
  funext ammPool
  exact decide_eq_decide.mpr or_comm

/-- C1 is refuted on the code: with page size 2, one full page `[1, 2]` and
then the short page `[3]`, the loop issues 3 page requests, not `k + 1 = 2` —
it continues past a short non-empty page and stops only on the empty page
after it. -/
theorem C1_counterexample :
    (getAddressUnspentBoxes ([[1, 2], [3]] : List (List Nat))).2 = 3 ∧
      ¬(getAddressUnspentBoxes ([[1, 2], [3]] : List (List Nat))).2 = 1 + 1 := by
  decide

/-- C1 (amended): the collection loop requests pages of fixed size
`utxosLimit` at offsets `0, L, 2L, ...` and returns exactly the concatenation
of the pages received, but it terminates only when a page returns zero items:
against a paginator returning `k` full pages followed by one short page it
issues `k + 1` requests when the short page is empty and `k + 2` requests when
it is not (the last request observes the empty page after the short one). -/
theorem C1_collect_pages {Box : Type} (limit : Nat) (full : List (List Box))
    (short : List Box) (hlim : 0 < limit)
    (hfull : ∀ p ∈ full, p.length = limit) (hshort : short.length < limit) :
    getAddressUnspentBoxes (full ++ [short]) =
      (full.flatten ++ short,
        if short.length = 0 then full.length + 1 else full.length + 2) := by
  induction full with
  | nil =>
    rcases short with _ | ⟨x, xs⟩ <;> simp [getAddressUnspentBoxes]
  | cons p ps ih =>
    have hp : p.length > 0 := by
      rw [hfull p (List.mem_cons_self p ps)]; exact hlim
    have ihh := ih fun q hq => hfull q (List.mem_cons_of_mem p hq)
    rw [List.cons_append, getAddressUnspentBoxes, if_pos hp, ihh]
    by_cases hc : short.length = 0 <;>
      simp [hc, List.append_assoc, Nat.add_comm, Nat.add_left_comm]

/-- Witness for C1 (amended) at page size 2, one full page and a short
non-empty page. -/
theorem C1_collect_pages_witness :
    getAddressUnspentBoxes ([[1, 2], [3]] : List (List Nat)) = ([1, 2, 3], 3) := by
  have h := C1_collect_pages 2 [[1, 2]] [3] (by decide) (by decide) (by decide)
  simpa using h

/-- `loadPools` loop body: a pool whose id is already in the catalog is not
appended. -/
theorem pushIfNewId_of_mem (catalog : List Pool) (pool : Pool)
    (h : pool.id ∈ catalog.map Pool.id) : pushIfNewId catalog pool = catalog := by
  unfold pushIfNewId
  rw [if_neg]
  intro hlen
  rw [List.length_eq_zero] at hlen
  obtain ⟨q, hq, hid⟩ := List.mem_map.mp h
  have hmem : q ∈ catalog.filter (fun ammPool => ammPool.id = pool.id) :=
    List.mem_filter.mpr ⟨hq, by simp [hid]⟩
  rw [hlen] at hmem
  exact absurd hmem (List.not_mem_nil q)

/-- `loadPools` loop body: a pool with a fresh id is appended at the end. -/
theorem pushIfNewId_of_not_mem (catalog : List Pool) (pool : Pool)
    (h : pool.id ∉ catalog.map Pool.id) :
    pushIfNewId catalog pool = catalog ++ [pool] := by
  unfold pushIfNewId
  rw [if_pos]
  rw [List.length_eq_zero, List.filter_eq_nil_iff]
  intro q hq
  simp only [decide_eq_true_eq]
  intro hid
  exact h (List.mem_map.mpr ⟨q, hq, hid⟩)

theorem pushIfNewId_nodup (catalog : List Pool) (pool : Pool)
    (h : (catalog.map Pool.id).Nodup) :
    ((pushIfNewId catalog pool).map Pool.id).Nodup := by
  by_cases hm : pool.id ∈ catalog.map Pool.id
  · rw [pushIfNewId_of_mem _ _ hm]; exact h
  · rw [pushIfNewId_of_not_mem _ _ hm, List.map_append]
    simp [List.nodup_append, h, hm]

theorem addPoolPage_nodup (page : List Pool) : ∀ catalog : List Pool,
    (catalog.map Pool.id).Nodup → ((addPoolPage catalog page).map Pool.id).Nodup := by
  induction page with
  | nil => intro catalog h; exact h
  | cons p ps ih =>
    intro catalog h
    unfold addPoolPage
    simp only [List.foldl_cons]
    exact ih _ (pushIfNewId_nodup _ _ h)

theorem loadPools_nodup (pages : List (List Pool)) : ∀ catalog : List Pool,
    (catalog.map Pool.id).Nodup → ((loadPools catalog pages).map Pool.id).Nodup := by
  induction pages with
  | nil => intro catalog h; exact h
  | cons page rest ih =>
    intro catalog h
    rw [loadPools]
    split
    · exact ih _ (addPoolPage_nodup _ _ h)
    · exact h

theorem addPoolPage_noop (page : List Pool) : ∀ catalog : List Pool,
    (∀ p ∈ page, p.id ∈ catalog.map Pool.id) → addPoolPage catalog page = catalog := by
  induction page with
  | nil => intro catalog _; rfl
  | cons p ps ih =>
    intro catalog h
    unfold addPoolPage
    simp only [List.foldl_cons]
    rw [pushIfNewId_of_mem _ _ (h p (by simp))]
    exact ih catalog fun q hq => h q (by simp [hq])

theorem loadPools_noop (pages : List (List Pool)) : ∀ catalog : List Pool,
    (∀ p ∈ pages.flatten, p.id ∈ catalog.map Pool.id) →
      loadPools catalog pages = catalog := by
  induction pages with
  | nil => intro catalog _; rfl
  | cons page rest ih =>
    intro catalog h
    rw [loadPools]
    split
    · rw [addPoolPage_noop page catalog fun p hp => h p (by simp [hp])]
      exact ih catalog fun p hp => h p (by simp [hp])
    · rfl

/-- C7: `loadPools` appends a fetched pool only when no pool with the same id
is already present, so from a duplicate-free catalog any number of page loads
leaves every pool id occurring at most once, and re-loading pages whose ids
are all already known is a no-op. -/
theorem C7_loadPools_unique_ids (catalog : List Pool) (pages : List (List Pool))
    (hnodup : (catalog.map Pool.id).Nodup) :
    ((loadPools catalog pages).map Pool.id).Nodup ∧
      ((∀ p ∈ pages.flatten, p.id ∈ catalog.map Pool.id) →
        loadPools catalog pages = catalog) :=
  ⟨loadPools_nodup pages catalog hnodup, loadPools_noop pages catalog⟩

/-- Witness for C7: loading a page that repeats one pool id twice yields a
duplicate-free catalog, and re-loading an already-known pool changes
nothing. -/
theorem C7_loadPools_unique_ids_witness :
    ((loadPools [] [[⟨"p1", ⟨⟨"A", 0⟩, 1⟩, ⟨⟨"B", 0⟩, 2⟩, 996⟩,
        ⟨"p1", ⟨⟨"A", 0⟩, 1⟩, ⟨⟨"B", 0⟩, 2⟩, 996⟩]]).map Pool.id).Nodup ∧
      loadPools [⟨"p1", ⟨⟨"A", 0⟩, 1⟩, ⟨⟨"B", 0⟩, 2⟩, 996⟩]
          [[⟨"p1", ⟨⟨"A", 0⟩, 1⟩, ⟨⟨"B", 0⟩, 2⟩, 996⟩]] =
        [⟨"p1", ⟨⟨"A", 0⟩, 1⟩, ⟨⟨"B", 0⟩, 2⟩, 996⟩] :=
  ⟨(C7_loadPools_unique_ids [] _ (by decide)).1,
   (C7_loadPools_unique_ids _ _ (by decide)).2 (by decide)⟩

/-- A box list in which no box carries the asset sums to zero. -/
theorem assetFold_zero_of_no_match (utxos : List ErgoBox) (tid : String)
    (h : ∀ box ∈ utxos, ∀ asset ∈ box.assets, asset.tokenId ≠ tid) :
    utxos.foldl (fun total box =>
      total + ((box.assets.filter (fun asset => asset.tokenId == tid)).foldl
        (fun totalAsset asset => totalAsset + asset.amount) 0)) 0 = 0 := by
  induction utxos with
  | nil => rfl
  | cons box rest ih =>
    have hfil : box.assets.filter (fun asset => asset.tokenId == tid) = [] :=
      List.filter_eq_nil_iff.mpr (by
        intro a ha
        simpa using h box (by simp) a ha)
    rw [List.foldl_cons, hfil]
    simp only [List.foldl_nil, Nat.add_zero]
    exact ih fun b hb a ha => h b (by simp [hb]) a ha

/-- C9: `getAssetBalance` raises the asset-not-found error whenever the asset
name is absent from the catalog, for every possible collection outcome (so
before any UTXO collection matters); it maps any collection failure to the
single chain-scoped error, independent of the underlying error; and on
successful collection it returns the sum of matching asset amounts over all
boxes, which is `"0"` when no box carries the asset. -/
theorem C9_getAssetBalance_spec (assetMap : List (String × ErgoAsset))
    (assetName : String) :
    (assetMap.lookup (toUpperCase assetName) = none →
      ∀ collected, getAssetBalance assetMap collected assetName = .error .assetNotFound) ∧
    (∀ ergoAsset, assetMap.lookup (toUpperCase assetName) = some ergoAsset →
      (∀ e, getAssetBalance assetMap (.error e) assetName = .error .nodeError) ∧
      (∀ utxos,
        getAssetBalance assetMap (.ok utxos) assetName =
          .ok (toString (utxos.foldl (fun total box =>
            total + ((box.assets.filter
                (fun asset => asset.tokenId == ergoAsset.tokenId)).foldl
              (fun totalAsset asset => totalAsset + asset.amount) 0)) 0)) ∧
        ((∀ box ∈ utxos, ∀ asset ∈ box.assets, asset.tokenId ≠ ergoAsset.tokenId) →
          getAssetBalance assetMap (.ok utxos) assetName = .ok "0"))) := by
  refine ⟨fun hnone collected => ?_,
    fun ergoAsset hsome => ⟨fun e => ?_, fun utxos => ⟨?_, fun hno => ?_⟩⟩⟩
  · unfold getAssetBalance; rw [hnone]
  · unfold getAssetBalance; rw [hsome]
  · unfold getAssetBalance; rw [hsome]
  · unfold getAssetBalance
    rw [hsome]
    dsimp only
    rw [assetFold_zero_of_no_match utxos ergoAsset.tokenId hno]
    rfl

/-- Witness for C9 on a one-entry catalog: unknown asset, failed collection
and a box set without the asset. -/
theorem C9_getAssetBalance_spec_witness :
    getAssetBalance [] (.ok []) "sigusd" = .error .assetNotFound ∧
    getAssetBalance [("SIGUSD", ⟨"tok1", 2, "SigUSD", "SIGUSD"⟩)]
        (.error "ECONNREFUSED") "sigusd" = .error .nodeError ∧
    getAssetBalance [("SIGUSD", ⟨"tok1", 2, "SigUSD", "SIGUSD"⟩)]
        (.ok [⟨"box1", 1000, [⟨"other", 5⟩]⟩]) "sigusd" = .ok "0" :=
  ⟨(C9_getAssetBalance_spec [] "sigusd").1 (by decide) (.ok []),
   ((C9_getAssetBalance_spec [("SIGUSD", ⟨"tok1", 2, "SigUSD", "SIGUSD"⟩)]
      "sigusd").2 ⟨"tok1", 2, "SigUSD", "SIGUSD"⟩ (by decide)).1 "ECONNREFUSED",
   (((C9_getAssetBalance_spec [("SIGUSD", ⟨"tok1", 2, "SigUSD", "SIGUSD"⟩)]
      "sigusd").2 ⟨"tok1", 2, "SigUSD", "SIGUSD"⟩ (by decide)).2
      [⟨"box1", 1000, [⟨"other", 5⟩]⟩]).2 (by decide)⟩

/-- C2: for identical inputs, whenever `swap` succeeds, `estimate` succeeds
and its `expectedAmount` equals `swap`'s `expectedOut` — both are the
`minOutput.amount` of the shared direction resolution, `outputAmount`
computation and `getBaseInputParameters` call, and `estimate` also reproduces
the quote's base, quote, amount and price fields: `estimate` is `swap` minus
input selection and transaction submission. -/
theorem C2_swap_estimate_agree (env : DexEnv) (ammPools : List Pool)
    (utxos : List ErgoBox) (baseToken quoteToken : String) (amount : Nat)
    (outputAddress : String) (slippage : Option ℚ) (r : TradeResult)
    (h : swap env ammPools utxos baseToken quoteToken amount outputAddress
      slippage = .ok r) :
    estimate env ammPools baseToken quoteToken amount slippage =
      .ok { base := baseToken, quote := quoteToken, amount := amount
            expectedAmount := r.expectedOut, price := r.price } := by
  unfold swap at h
  unfold estimate
  cases hpool : getPoolByToken ammPools baseToken quoteToken with
  | none => rw [hpool] at h; exact absurd h (by simp)
  | some pool =>
    rw [hpool] at h
    dsimp only at h
    dsimp only
    by_cases hsell : pool.x.asset.id = baseToken
    · have hs : (if pool.x.asset.id = baseToken then false else true) = false := by
        simp [hsell]
      simp only [hs, Bool.false_eq_true, if_false] at h
      simp only [hs, Bool.false_eq_true, if_false]
      split at h
      · exact absurd h (by simp)
      · split at h
        · exact absurd h (by simp)
        · split at h
          · exact absurd h (by simp)
          · split at h
            · exact absurd h (by simp)
            · injection h with h2
              subst h2
              rfl
    · have hs : (if pool.x.asset.id = baseToken then false else true) = true := by
        simp [hsell]
      simp only [hs, eq_self_iff_true, if_true] at h
      simp only [hs, eq_self_iff_true, if_true]
      split at h
      · exact absurd h (by simp)
      · split at h
        · exact absurd h (by simp)
        · split at h
          · exact absurd h (by simp)
          · split at h
            · exact absurd h (by simp)
            · injection h with h2
              subst h2
              rfl

/-- Witness for C2 at a concrete environment and a one-pool catalog. -/
theorem C2_swap_estimate_agree_witness :
    estimate
      { outputAmount := fun _ _ _ => 5
        getBaseInputParameters := fun _ fromA _ => ⟨fromA, fromA.amount, ⟨⟨"B", 0⟩, 7⟩⟩
        swapVars := fun _ _ minOutput => some (1, ⟨10, minOutput⟩)
        getInputs := fun utxos _ _ _ _ => some utxos
        publicKeyFromAddress := fun _ => some "pk"
        priceXNumerator := fun _ => 3
        priceYNumerator := fun _ => 4
        defaultSlippage := 1
        defaultMinerFee := 2
        minNitro := 1
        blockTimestamp := 0
        txId := "tx" }
      [⟨"p1", ⟨⟨"A", 0⟩, 10⟩, ⟨⟨"B", 0⟩, 20⟩, 996⟩] "A" "B" 5 none =
      .ok { base := "A", quote := "B", amount := 5, expectedAmount := 7, price := 4 } :=
  C2_swap_estimate_agree _ _ [] "A" "B" 5 "addr" none ⟨"A", "B", 5, 7, 4, "tx"⟩ rfl

/-- C6 is refuted on the code: with a zero computed required input, `swap`
fails with the insufficient-liquidity error but `estimate` returns a quote
(built from the zero input) instead of failing. -/
theorem C6_counterexample :
    swap
      { outputAmount := fun _ _ _ => 0
        getBaseInputParameters := fun _ fromA _ => ⟨fromA, fromA.amount, ⟨fromA.asset, fromA.amount⟩⟩
        swapVars := fun _ _ minOutput => some (1, ⟨10, minOutput⟩)
        getInputs := fun utxos _ _ _ _ => some utxos
        publicKeyFromAddress := fun _ => some "pk"
        priceXNumerator := fun _ => 3
        priceYNumerator := fun _ => 4
        defaultSlippage := 1
        defaultMinerFee := 2
        minNitro := 1
        blockTimestamp := 0
        txId := "tx" }
      [⟨"p1", ⟨⟨"A", 0⟩, 10⟩, ⟨⟨"B", 0⟩, 20⟩, 996⟩] [] "A" "B" 5 "addr" none =
        .error .insufficientLiquidity ∧
    estimate
      { outputAmount := fun _ _ _ => 0
        getBaseInputParameters := fun _ fromA _ => ⟨fromA, fromA.amount, ⟨fromA.asset, fromA.amount⟩⟩
        swapVars := fun _ _ minOutput => some (1, ⟨10, minOutput⟩)
        getInputs := fun utxos _ _ _ _ => some utxos
        publicKeyFromAddress := fun _ => some "pk"
        priceXNumerator := fun _ => 3
        priceYNumerator := fun _ => 4
        defaultSlippage := 1
        defaultMinerFee := 2
        minNitro := 1
        blockTimestamp := 0
        txId := "tx" }
      [⟨"p1", ⟨⟨"A", 0⟩, 10⟩, ⟨⟨"B", 0⟩, 20⟩, 996⟩] "A" "B" 5 none =
        .ok { base := "A", quote := "B", amount := 5, expectedAmount := 0, price := 4 } :=
  ⟨rfl, rfl⟩

/-- C6 (amended): when the constant-product computation of the required input
amount yields zero, `swap` fails with the insufficient-liquidity error, but
`estimate` performs no such check and returns a quote. -/
theorem C6_zero_required_input (env : DexEnv) (ammPools : List Pool)
    (utxos : List ErgoBox) (baseToken quoteToken : String) (amount : Nat)
    (outputAddress : String) (slippage : Option ℚ) (pool : Pool)
    (hpool : getPoolByToken ammPools baseToken quoteToken = some pool)
    (hzero : requiredInputAmount env pool baseToken amount
      (slippageOrDefault slippage env.defaultSlippage) = 0) :
    swap env ammPools utxos baseToken quoteToken amount outputAddress slippage =
        .error .insufficientLiquidity ∧
      ∃ q : PriceResult,
        estimate env ammPools baseToken quoteToken amount slippage = .ok q := by
  unfold requiredInputAmount at hzero
  dsimp only at hzero
  constructor
  · unfold swap
    rw [hpool]
    dsimp only
    rw [if_pos hzero]
  · unfold estimate
    rw [hpool]
    dsimp only
    exact ⟨_, rfl⟩

/-- Witness for C6 (amended) at a concrete zero-output environment. -/
theorem C6_zero_required_input_witness :
    swap
      { outputAmount := fun _ _ _ => 0
        getBaseInputParameters := fun _ fromA _ => ⟨fromA, fromA.amount, ⟨fromA.asset, fromA.amount⟩⟩
        swapVars := fun _ _ minOutput => some (1, ⟨10, minOutput⟩)
        getInputs := fun utxos _ _ _ _ => some utxos
        publicKeyFromAddress := fun _ => some "pk"
        priceXNumerator := fun _ => 3
        priceYNumerator := fun _ => 4
        defaultSlippage := 1
        defaultMinerFee := 2
        minNitro := 1
        blockTimestamp := 0
        txId := "tx" }
      [⟨"p2", ⟨⟨"A", 0⟩, 10⟩, ⟨⟨"B", 0⟩, 20⟩, 996⟩] [] "A" "B" 9 "addr" none =
        .error .insufficientLiquidity ∧
      ∃ q : PriceResult,
        estimate
          { outputAmount := fun _ _ _ => 0
            getBaseInputParameters := fun _ fromA _ => ⟨fromA, fromA.amount, ⟨fromA.asset, fromA.amount⟩⟩
            swapVars := fun _ _ minOutput => some (1, ⟨10, minOutput⟩)
            getInputs := fun utxos _ _ _ _ => some utxos
            publicKeyFromAddress := fun _ => some "pk"
            priceXNumerator := fun _ => 3
            priceYNumerator := fun _ => 4
            defaultSlippage := 1
            defaultMinerFee := 2
            minNitro := 1
            blockTimestamp := 0
            txId := "tx" }
          [⟨"p2", ⟨⟨"A", 0⟩, 10⟩, ⟨⟨"B", 0⟩, 20⟩, 996⟩] "A" "B" 9 none = .ok q :=
  C6_zero_required_input _ _ [] "A" "B" 9 "addr" none
    ⟨"p2", ⟨⟨"A", 0⟩, 10⟩, ⟨⟨"B", 0⟩, 20⟩, 996⟩ rfl rfl

/-! ### Hex, split, padding and CBC lemmas -/

theorem hexVal_hexDigit : ∀ n, n < 16 → hexVal (hexDigit n) = some n := by decide

theorem hexDigit_ne_colon : ∀ n, n < 16 → hexDigit n ≠ ':' := by decide

theorem fromHex_toHex (bs : List Nat) (h : ∀ b ∈ bs, b < 256) :
    fromHex (toHex bs) = bs := by
  induction bs with
  | nil => rfl
  | cons b bs ih =>
    have hb : b < 256 := h b (by simp)
    have h1 : b / 16 < 16 := by
      refine (Nat.div_lt_iff_lt_mul (by norm_num)).mpr ?_
      omega
    have h2 : b % 16 < 16 := Nat.mod_lt _ (by norm_num)
    have hth : toHex (b :: bs) = hexDigit (b / 16) :: hexDigit (b % 16) :: toHex bs := by
      simp [toHex, byteToHex]
    rw [hth, fromHex, hexVal_hexDigit _ h1, hexVal_hexDigit _ h2]
    rw [ih fun x hx => h x (by simp [hx])]
    dsimp only
    rw [Nat.div_add_mod]

theorem toHex_no_colon (bs : List Nat) (h : ∀ b ∈ bs, b < 256) : ':' ∉ toHex bs := by
  intro hc
  simp only [toHex, List.mem_flatten, List.mem_map] at hc
  obtain ⟨cl, ⟨b, hb, rfl⟩, hcc⟩ := hc
  have hblt := h b hb
  have h1 : b / 16 < 16 := by
    refine (Nat.div_lt_iff_lt_mul (by norm_num)).mpr ?_
    omega
  have h2 : b % 16 < 16 := Nat.mod_lt _ (by norm_num)
  simp only [byteToHex, List.mem_cons, List.not_mem_nil, or_false] at hcc
  rcases hcc with hcc | hcc
  · exact hexDigit_ne_colon _ h1 hcc.symm
  · exact hexDigit_ne_colon _ h2 hcc.symm

theorem splitOnColon_no_colon (s : List Char) (h : ':' ∉ s) : splitOnColon s = [s] := by
  induction s with
  | nil => rfl
  | cons c cs ih =>
    have hc : ¬(c = ':') := fun hh => h (by simp [hh])
    rw [splitOnColon, if_neg hc, ih fun hm => h (by simp [hm])]

theorem splitOnColon_append (a rest : List Char) (h : ':' ∉ a) :
    splitOnColon (a ++ ':' :: rest) = a :: splitOnColon rest := by
  induction a with
  | nil =>
    rw [List.nil_append, splitOnColon, if_pos rfl]
  | cons c cs ih =>
    have hc : ¬(c = ':') := fun hh => h (by simp [hh])
    rw [List.cons_append, splitOnColon, if_neg hc, ih fun hm => h (by simp [hm])]

theorem pad16_length_mod (data : List Nat) : (pad16 data).length % 16 = 0 := by
  unfold pad16
  simp only [List.length_append, List.length_replicate]
  omega

theorem pad16_bytes (data : List Nat) (h : ∀ x ∈ data, x < 256) :
    ∀ x ∈ pad16 data, x < 256 := by
  intro x hx
  unfold pad16 at hx
  rcases List.mem_append.mp hx with hx | hx
  · exact h x hx
  · have := List.eq_of_mem_replicate hx
    omega

theorem unpad16_pad16 (data : List Nat) : unpad16 (pad16 data) = some data := by
  have hp1 : 1 ≤ 16 - data.length % 16 := by omega
  have hp16 : 16 - data.length % 16 ≤ 16 := by omega
  set p := 16 - data.length % 16 with hpdef
  have hlast : (pad16 data).getLast? = some p := by
    unfold pad16
    rw [← hpdef]
    obtain ⟨k, hk⟩ : ∃ k, p = k + 1 := ⟨p - 1, by omega⟩
    rw [hk, List.replicate_succ', ← List.append_assoc, List.getLast?_concat]
  unfold unpad16
  rw [hlast]
  dsimp only
  have hlen : (pad16 data).length = data.length + p := by
    unfold pad16
    simp [← hpdef]
  rw [if_pos]
  · rw [hlen]
    have hsub : data.length + p - p = data.length := by omega
    rw [hsub]
    unfold pad16
    rw [← hpdef]
    exact congrArg some (List.take_left data (List.replicate p p))
  · refine ⟨hp1, hp16, ?_, ?_⟩
    · rw [hlen]; omega
    · rw [hlen]
      have hsub : data.length + p - p = data.length := by omega
      rw [hsub]
      unfold pad16
      rw [← hpdef, List.drop_left]
      simp only [List.all_eq_true, decide_eq_true_eq]
      intro x hx
      exact List.eq_of_mem_replicate hx

theorem chunksGo_flatten : ∀ (fuel : Nat) (data : List Nat), data.length ≤ fuel →
    (chunksGo fuel data).flatten = data := by
  intro fuel
  induction fuel with
  | zero =>
    intro data h
    cases data with
    | nil => rfl
    | cons d ds => simp at h
  | succ f ih =>
    intro data h
    cases data with
    | nil => rfl
    | cons d ds =>
      rw [chunksGo]
      rw [List.flatten_cons]
      rw [ih _ (by simp only [List.length_drop]; simp at h ⊢; omega)]
      exact List.take_append_drop 16 (d :: ds)

theorem chunks16_flatten (data : List Nat) : (chunks16 data).flatten = data :=
  chunksGo_flatten data.length data le_rfl

theorem chunksGo_blocks_length : ∀ (fuel : Nat) (data : List Nat),
    data.length ≤ fuel → data.length % 16 = 0 →
    ∀ b ∈ chunksGo fuel data, b.length = 16 := by
  intro fuel
  induction fuel with
  | zero =>
    intro data h _ b hb
    cases data with
    | nil => simp [chunksGo] at hb
    | cons d ds => simp at h
  | succ f ih =>
    intro data h hm b hb
    cases data with
    | nil => simp [chunksGo] at hb
    | cons d ds =>
      rw [chunksGo] at hb
      simp only [List.length_cons] at h hm
      rcases List.mem_cons.mp hb with hb | hb
      · subst hb
        rw [List.length_take]
        simp only [List.length_cons]
        omega
      · refine ih _ ?_ ?_ b hb
        · simp only [List.length_drop, List.length_cons]
          omega
        · simp only [List.length_drop, List.length_cons]
          omega

theorem chunks16_blocks_length (data : List Nat) (hm : data.length % 16 = 0) :
    ∀ b ∈ chunks16 data, b.length = 16 :=
  chunksGo_blocks_length data.length data le_rfl hm

theorem chunksGo_of_blocks : ∀ (blocks : List (List Nat)) (fuel : Nat),
    (∀ b ∈ blocks, b.length = 16) → blocks.flatten.length ≤ fuel →
    chunksGo fuel blocks.flatten = blocks := by
  intro blocks
  induction blocks with
  | nil =>
    intro fuel _ _
    cases fuel <;> rfl
  | cons b bs ih =>
    intro fuel hlen hfuel
    have hb : b.length = 16 := hlen b (by simp)
    cases b with
    | nil => simp at hb
    | cons c cs =>
      rw [List.flatten_cons] at hfuel ⊢
      cases fuel with
      | zero =>
        exfalso
        simp only [List.length_append, List.length_cons] at hfuel
        omega
      | succ f =>
        rw [List.cons_append, chunksGo, ← List.cons_append]
        rw [show (16 : Nat) = ((c :: cs) : List Nat).length from hb.symm]
        rw [List.take_left, List.drop_left]
        rw [ih f (fun q hq => hlen q (by simp [hq])) ?_]
        simp only [List.length_append, List.length_cons] at hfuel
        simp only [List.length_cons] at hb
        omega

theorem chunks16_of_blocks (blocks : List (List Nat))
    (hlen : ∀ b ∈ blocks, b.length = 16) :
    chunks16 blocks.flatten = blocks :=
  chunksGo_of_blocks blocks blocks.flatten.length hlen le_rfl

theorem flatten_blocks_mod (l : List (List Nat)) (h : ∀ b ∈ l, b.length = 16) :
    l.flatten.length % 16 = 0 := by
  induction l with
  | nil => rfl
  | cons b bs ih =>
    rw [List.flatten_cons, List.length_append, h b (by simp)]
    have := ih fun q hq => h q (by simp [hq])
    omega

theorem xorBytes_length (a b : List Nat) :
    (xorBytes a b).length = min a.length b.length := by
  simp [xorBytes]

theorem xorBytes_cancel : ∀ a b : List Nat, a.length = b.length →
    xorBytes (xorBytes a b) b = a := by
  intro a
  induction a with
  | nil =>
    intro b h
    cases b with
    | nil => rfl
    | cons y ys => simp at h
  | cons x xs ih =>
    intro b h
    cases b with
    | nil => simp at h
    | cons y ys =>
      simp only [xorBytes, List.zipWith_cons_cons]
      rw [Nat.xor_cancel_right]
      have := ih ys (by simpa using h)
      simp only [xorBytes] at this
      rw [this]

theorem xorBytes_lt : ∀ a b : List Nat, (∀ x ∈ a, x < 256) → (∀ y ∈ b, y < 256) →
    ∀ z ∈ xorBytes a b, z < 256 := by
  intro a
  induction a with
  | nil =>
    intro b _ _ z hz
    simp [xorBytes] at hz
  | cons x xs ih =>
    intro b ha hb z hz
    cases b with
    | nil => simp [xorBytes] at hz
    | cons y ys =>
      simp only [xorBytes, List.zipWith_cons_cons, List.mem_cons] at hz
      rcases hz with hz | hz
      · subst hz
        have hx : x < 2 ^ 8 := by
          have := ha x (by simp); omega
        have hy : y < 2 ^ 8 := by
          have := hb y (by simp); omega
        have := Nat.xor_lt_two_pow hx hy
        omega
      · exact ih ys (fun q hq => ha q (by simp [hq]))
          (fun q hq => hb q (by simp [hq])) z hz

theorem cbcEncBlocks_length (C : BlockCipher) (key : List Nat) :
    ∀ (blocks : List (List Nat)) (prev : List Nat), prev.length = 16 →
    (∀ b ∈ blocks, b.length = 16) →
    ∀ c ∈ cbcEncBlocks C.enc key prev blocks, c.length = 16 := by
  intro blocks
  induction blocks with
  | nil =>
    intro prev _ _ c hc
    simp [cbcEncBlocks] at hc
  | cons b bs ih =>
    intro prev hprev hlen c hc
    simp only [cbcEncBlocks, List.mem_cons] at hc
    have hxlen : (xorBytes b prev).length = 16 := by
      rw [xorBytes_length, hlen b (by simp), hprev]
      exact Nat.min_self 16
    rcases hc with hc | hc
    · subst hc
      exact C.enc_length key _ hxlen
    · exact ih _ (C.enc_length key _ hxlen) (fun q hq => hlen q (by simp [hq])) c hc

theorem cbcEncBlocks_bytes (C : BlockCipher) (key : List Nat) :
    ∀ (blocks : List (List Nat)) (prev : List Nat), prev.length = 16 →
    (∀ x ∈ prev, x < 256) →
    (∀ b ∈ blocks, b.length = 16) → (∀ b ∈ blocks, ∀ x ∈ b, x < 256) →
    ∀ c ∈ cbcEncBlocks C.enc key prev blocks, ∀ x ∈ c, x < 256 := by
  intro blocks
  induction blocks with
  | nil =>
    intro prev _ _ _ _ c hc
    simp [cbcEncBlocks] at hc
  | cons b bs ih =>
    intro prev hprev hprevb hlen hbytes c hc
    simp only [cbcEncBlocks, List.mem_cons] at hc
    have hxlen : (xorBytes b prev).length = 16 := by
      rw [xorBytes_length, hlen b (by simp), hprev]
      exact Nat.min_self 16
    have hxbytes : ∀ x ∈ xorBytes b prev, x < 256 :=
      xorBytes_lt b prev (hbytes b (by simp)) hprevb
    rcases hc with hc | hc
    · subst hc
      exact C.enc_bytes key _ hxlen hxbytes
    · exact ih _ (C.enc_length key _ hxlen) (C.enc_bytes key _ hxlen hxbytes)
        (fun q hq => hlen q (by simp [hq]))
        (fun q hq => hbytes q (by simp [hq])) c hc

theorem cbcDecBlocks_cbcEncBlocks (C : BlockCipher) (key : List Nat) :
    ∀ (blocks : List (List Nat)) (prev : List Nat), prev.length = 16 →
    (∀ b ∈ blocks, b.length = 16) →
    cbcDecBlocks C.dec key prev (cbcEncBlocks C.enc key prev blocks) = blocks := by
  intro blocks
  induction blocks with
  | nil => intro prev _ _; rfl
  | cons b bs ih =>
    intro prev hprev hlen
    have hxlen : (xorBytes b prev).length = 16 := by
      rw [xorBytes_length, hlen b (by simp), hprev]
      exact Nat.min_self 16
    simp only [cbcEncBlocks, cbcDecBlocks]
    rw [C.dec_enc key _ hxlen]
    rw [xorBytes_cancel b prev (by rw [hlen b (by simp), hprev])]
    rw [ih _ (C.enc_length key _ hxlen) fun q hq => hlen q (by simp [hq])]

/-- Core round trip of `Ergo.decrypt` over `Ergo.encrypt`: decrypting with any
password deriving the same 32-byte key buffer recovers the secret exactly. -/
theorem decrypt_encrypt_keyEq (C : BlockCipher) (secret pw1 pw2 iv : List Nat)
    (hkey : writeKey pw1 = writeKey pw2) (hivlen : iv.length = 16)
    (hivb : ∀ b ∈ iv, b < 256) (hsec : ∀ b ∈ secret, b < 256) :
    decrypt C (encrypt C secret pw1 iv) pw2 = some secret := by
  have hpadmod : (pad16 secret).length % 16 = 0 := pad16_length_mod secret
  have hpadbytes : ∀ x ∈ pad16 secret, x < 256 := pad16_bytes secret hsec
  have hblocks_len : ∀ b ∈ chunks16 (pad16 secret), b.length = 16 :=
    chunks16_blocks_length _ hpadmod
  have hblocks_bytes : ∀ b ∈ chunks16 (pad16 secret), ∀ x ∈ b, x < 256 := by
    intro b hb x hx
    refine hpadbytes x ?_
    rw [← chunks16_flatten (pad16 secret)]
    exact List.mem_flatten.mpr ⟨b, hb, hx⟩
  have henc_len : ∀ c ∈ cbcEncBlocks C.enc (writeKey pw1) iv (chunks16 (pad16 secret)),
      c.length = 16 :=
    cbcEncBlocks_length C (writeKey pw1) _ iv hivlen hblocks_len
  have henc_bytes : ∀ c ∈ cbcEncBlocks C.enc (writeKey pw1) iv (chunks16 (pad16 secret)),
      ∀ x ∈ c, x < 256 :=
    cbcEncBlocks_bytes C (writeKey pw1) _ iv hivlen hivb hblocks_len hblocks_bytes
  have hct_bytes : ∀ x ∈ cbcEncrypt C (writeKey pw1) iv secret, x < 256 := by
    intro x hx
    unfold cbcEncrypt at hx
    obtain ⟨c, hc, hxc⟩ := List.mem_flatten.mp hx
    exact henc_bytes c hc x hxc
  unfold encrypt decrypt
  rw [splitOnColon_append _ _ (toHex_no_colon iv hivb),
      splitOnColon_no_colon _ (toHex_no_colon _ hct_bytes)]
  dsimp only
  rw [fromHex_toHex iv hivb, fromHex_toHex _ hct_bytes, if_pos hivlen, ← hkey]
  unfold cbcDecrypt cbcEncrypt
  rw [if_pos (flatten_blocks_mod _ henc_len)]
  rw [chunks16_of_blocks _ henc_len]
  rw [cbcDecBlocks_cbcEncBlocks C (writeKey pw1) _ iv hivlen hblocks_len]
  rw [chunks16_flatten]
  exact unpad16_pad16 secret

/-- A concrete instance of the `BlockCipher` interface (identity on blocks),
used to evaluate the vault pipeline on closed inputs. -/
def idCipher : BlockCipher where
  enc := fun _ block => block
  dec := fun _ block => block
  enc_length := fun _ _ h => h
  enc_bytes := fun _ _ _ hb => hb
  dec_enc := fun _ _ _ => rfl

/-- C3: for every secret byte string and password of at most 32 encoded bytes,
decrypting the encryption under the same password returns exactly the secret —
the key being the password written into a zeroed 32-byte buffer, the cipher
AES-256-CBC over a fresh 16-byte IV, and the result serialized as
`hex(iv):hex(ciphertext)`. -/
theorem C3_decrypt_encrypt_roundtrip (C : BlockCipher)
    (secret password iv : List Nat) (hpw : password.length ≤ 32)
    (hivlen : iv.length = 16) (hivb : ∀ b ∈ iv, b < 256)
    (hsec : ∀ b ∈ secret, b < 256) :
    decrypt C (encrypt C secret password iv) password = some secret :=
  decrypt_encrypt_keyEq C secret password password iv rfl hivlen hivb hsec

/-- Witness for C3 with the identity block cipher on a 3-byte secret. -/
theorem C3_decrypt_encrypt_roundtrip_witness :
    decrypt idCipher (encrypt idCipher [1, 2, 3] [97] (List.replicate 16 0)) [97] =
      some [1, 2, 3] :=
  C3_decrypt_encrypt_roundtrip idCipher [1, 2, 3] [97] (List.replicate 16 0)
    (by decide) (by decide) (by decide) (by decide)

/-- C4 is refuted on the code: the distinct passwords `"a"` (byte `[97]`) and
`"a\x00"` (bytes `[97, 0]`) derive the same 32-byte key buffer, so decryption
under the second password of an encryption under the first silently returns
the secret itself. -/
theorem C4_counterexample :
    ([97] : List Nat) ≠ [97, 0] ∧
      decrypt idCipher (encrypt idCipher [1, 2, 3] [97] (List.replicate 16 0))
        [97, 0] = some [1, 2, 3] := by
  constructor
  · decide
  · exact decrypt_encrypt_keyEq idCipher [1, 2, 3] [97] [97, 0]
      (List.replicate 16 0) (by decide) (by decide) (by decide) (by decide)

/-- C4 (amended): distinct passwords guarantee neither failure nor a different
result — whenever `pw1 ≠ pw2` derive the same 32-byte key buffer (as with a
trailing NUL byte or bytes beyond the 32nd), `decrypt(encrypt(secret, pw1),
pw2)` silently returns exactly `secret`; a fails-or-differs guarantee could
only concern passwords whose derived keys differ. -/
theorem C4_distinct_password_same_key (C : BlockCipher)
    (secret pw1 pw2 iv : List Nat) (hne : pw1 ≠ pw2)
    (hkey : writeKey pw1 = writeKey pw2) (hivlen : iv.length = 16)
    (hivb : ∀ b ∈ iv, b < 256) (hsec : ∀ b ∈ secret, b < 256) :
    decrypt C (encrypt C secret pw1 iv) pw2 = some secret :=
  decrypt_encrypt_keyEq C secret pw1 pw2 iv hkey hivlen hivb hsec

/-- Witness for C4 (amended) at the password pair `[97]` / `[97, 0]`. -/
theorem C4_distinct_password_same_key_witness :
    decrypt idCipher (encrypt idCipher [5, 6] [97] (List.replicate 16 0)) [97, 0] =
      some [5, 6] :=
  C4_distinct_password_same_key idCipher [5, 6] [97] [97, 0] (List.replicate 16 0)
    (by decide) (by decide) (by decide) (by decide) (by decide)

/-- C5 is refuted on the code: on an input whose split has three fields,
`decrypt` does not fail — it ignores the third field and successfully
deciphers from the first two. -/
theorem C5_counterexample :
    (splitOnColon (encrypt idCipher [1, 2] [97] (List.replicate 16 0) ++
        ':' :: ['j', 'u', 'n', 'k'])).length = 3 ∧
      decrypt idCipher (encrypt idCipher [1, 2] [97] (List.replicate 16 0) ++
        ':' :: ['j', 'u', 'n', 'k']) [97] = some [1, 2] := by
  decide

/-- C5 (amended): `decrypt` destructures only the first two ':'-separated
fields and performs no field-count or hex validation — there is no
`MalformedCiphertext` check: an input without any ':' fails only because the
second destructured field is `undefined`, while fields past the second are
ignored, decryption proceeding exactly as if they were absent. -/
theorem C5_decrypt_first_two_fields (C : BlockCipher) (password : List Nat)
    (s a b rest : List Char) (hs : ':' ∉ s) (ha : ':' ∉ a) (hb : ':' ∉ b) :
    decrypt C s password = none ∧
      decrypt C (a ++ ':' :: (b ++ ':' :: rest)) password =
        decrypt C (a ++ ':' :: b) password := by
  constructor
  · unfold decrypt
    rw [splitOnColon_no_colon s hs]
  · unfold decrypt
    rw [splitOnColon_append a (b ++ ':' :: rest) ha,
        splitOnColon_append b rest hb,
        splitOnColon_append a b ha,
        splitOnColon_no_colon b hb]

/-- Witness for C5 (amended): a colon-free input fails, and a third field is
ignored. -/
theorem C5_decrypt_first_two_fields_witness :
    decrypt idCipher ['a', 'b'] [97] = none ∧
      decrypt idCipher (['a'] ++ ':' :: (['b'] ++ ':' :: ['c'])) [97] =
        decrypt idCipher (['a'] ++ ':' :: ['b']) [97] :=
  C5_decrypt_first_two_fields idCipher [97] ['a', 'b'] ['a'] ['b'] ['c']
    (by decide) (by decide) (by decide)

end ErgoSpec
